import Mathlib

/-!
Verification of the bees_dash extraction pipeline (scripts/extract_data.py,
scripts/config.py) against its natural-language specification.

The Python code is shallowly embedded: pandas dataframes of order rows become
lists of `OrderRecord`; `pd.to_numeric(..., errors='coerce')` becomes
`coerceGmv` (a value that fails coercion becomes `GmvVal.nan` and is skipped
by sums, exactly as pandas `sum` skips NaN); Python's `round(x, n)`
(round-half-to-even) becomes `roundHE`-based `round2` / `round1` over `ℚ`;
`Series.nunique` becomes `nunique` (length of `dedup`); in-place column
assignment is modelled by state-passing variants returning the post-call
record list.
-/

/-- A raw `order_gmv` cell: a numeric value, a non-numeric value that fails
`pd.to_numeric` coercion (`bad`), or an already-missing value (`nan`). -/
inductive GmvVal where
  | num (q : ℚ)
  | bad
  | nan
deriving DecidableEq, Repr

/-- One order row as produced by the source queries (columns of the
SELECT lists in `query_orders` / `query_gold_orders`).  `placement_utc` is the
placement instant as seconds since the epoch, UTC (the code parses
`placement_date` with `pd.to_datetime(..., utc=True)`). -/
structure OrderRecord where
  country : String
  placement_utc : ℤ
  order_number : String
  order_gmv : GmvVal
  account_id : String
  vendor_account_id : String
  order_status : String
  channel : String
deriving DecidableEq, Repr

/-- `pd.to_numeric(col, errors='coerce')` on one cell: numeric values pass
through, anything else becomes NaN. -/
def coerceGmv : GmvVal → GmvVal
  | .num q => .num q
  | _ => .nan

/-- The numeric content of a (coerced) gmv cell; `none` for NaN, which
pandas `Series.sum` skips. -/
def gmvNum : GmvVal → Option ℚ
  | .num q => some q
  | _ => none

/-- `df["order_gmv"].sum()` after `to_numeric(..., errors='coerce')`:
the sum of the coercible values, NaN rows skipped. -/
def sumGmv (l : List OrderRecord) : ℚ :=
  (l.filterMap (fun r => gmvNum (coerceGmv r.order_gmv))).sum

/-- `Series.nunique`: number of distinct values. -/
def nunique (l : List String) : ℕ := l.dedup.length

/-- Round a rational to the nearest integer, ties to even — the semantics of
Python's builtin `round`. -/
def roundHE (x : ℚ) : ℤ :=
  if x - x.floor < 1/2 then x.floor
  else if (1:ℚ)/2 < x - x.floor then x.floor + 1
  else if x.floor % 2 = 0 then x.floor else x.floor + 1

/-- Python `round(x, 2)`. -/
def round2 (x : ℚ) : ℚ := (roundHE (x * 100) : ℚ) / 100

/-- Python `round(x, 1)`. -/
def round1 (x : ℚ) : ℚ := (roundHE (x * 10) : ℚ) / 10

/-- `CURRENCY_RATES` from config.py. -/
def CURRENCY_RATES : List (String × ℚ) := [("PH", 56017/1000), ("VN", 26416)]

/-- `CURRENCY_RATES.get(country, 1) if country else 1` from
`calculate_metrics` / `calculate_channel_metrics`. -/
def currencyRate (country : Option String) : ℚ :=
  match country with
  | none => 1
  | some c => (CURRENCY_RATES.lookup c).getD 1

/-- The dict returned by `calculate_metrics` (count fields are ints,
the rest floats). -/
structure MetricSet where
  total_gmv : ℚ
  total_gmv_usd : ℚ
  orders : ℕ
  unique_buyers : ℕ
  unique_vendors : ℕ
  aov : ℚ
  aov_usd : ℚ
  frequency : ℚ
  gmv_per_poc : ℚ
  gmv_per_poc_usd : ℚ
deriving DecidableEq, Repr

/-- The all-zero dict returned by `calculate_metrics` on an empty frame. -/
def zeroMetricSet : MetricSet :=
  { total_gmv := 0, total_gmv_usd := 0, orders := 0, unique_buyers := 0,
    unique_vendors := 0, aov := 0, aov_usd := 0, frequency := 0,
    gmv_per_poc := 0, gmv_per_poc_usd := 0 }

/-- `calculate_metrics(df, country)` from extract_data.py: coerce
`order_gmv`, sum it (NaN skipped), count distinct order numbers, buyers and
vendors, derive ratios with divide-by-zero guards, divide by the currency
rate, and round every float field to 2 decimals in the returned dict. -/
def calculate_metrics (l : List OrderRecord) (country : Option String) : MetricSet :=
  if l.isEmpty then zeroMetricSet
  else
    let total_gmv := sumGmv l
    let orders := nunique (l.map (fun r => r.order_number))
    let unique_buyers := nunique (l.map (fun r => r.account_id))
    let unique_vendors := nunique (l.map (fun r => r.vendor_account_id))
    let aov : ℚ := if 0 < orders then total_gmv / orders else 0
    let frequency : ℚ := if 0 < unique_buyers then (orders : ℚ) / unique_buyers else 0
    let gmv_per_poc : ℚ := if 0 < unique_vendors then total_gmv / unique_vendors else 0
    let usd_rate := currencyRate country
    { total_gmv := round2 total_gmv,
      total_gmv_usd := round2 (total_gmv / usd_rate),
      orders := orders,
      unique_buyers := unique_buyers,
      unique_vendors := unique_vendors,
      aov := round2 aov,
      aov_usd := round2 (aov / usd_rate),
      frequency := round2 frequency,
      gmv_per_poc := round2 gmv_per_poc,
      gmv_per_poc_usd := round2 (gmv_per_poc / usd_rate) }

/-- `pd.to_datetime(df["placement_date"], format='mixed', utc=True).dt.date`:
the UTC calendar day of the placement instant (days since the epoch,
floor division of the UTC second count). -/
def utcDay (r : OrderRecord) : ℤ := Int.fdiv r.placement_utc 86400

/-- Country timezone offsets in hours, from `query_orders`
(`tz_offset = 8 if country == 'PH' else 7`). -/
def tzOffsetHours (c : String) : ℤ := if c = "PH" then 8 else 7

/-- Modelled from the spec: the country-local calendar date of a record's
placement instant ("Daily bucketing key is the country-local calendar date
derived from `placement_timestamp`").  Present only to compare the code's
actual bucketing key with the one the spec prescribes. -/
def localDay (r : OrderRecord) : ℤ :=
  Int.fdiv (r.placement_utc + tzOffsetHours r.country * 3600) 86400

/-- Ascending order on the group keys: pandas `groupby` yields groups in
ascending key order and the code re-sorts the day dicts by the ISO date
string, which orders the same way. -/
def sortAsc (l : List ℤ) : List ℤ := List.insertionSort (fun a b => a ≤ b) l

/-- `calculate_daily_metrics(df, country)`: group rows by the UTC calendar
date of `placement_date`, run `calculate_metrics` on each group, and return
the per-day dicts ascending by date. -/
def calculate_daily_metrics (l : List OrderRecord) (country : Option String) :
    List (ℤ × MetricSet) :=
  if l.isEmpty then []
  else (sortAsc ((l.map utcDay).dedup)).map
    (fun d => (d, calculate_metrics (l.filter (fun r => utcDay r = d)) country))

/-- The dict returned by `calculate_moving_average`. -/
structure MAOut where
  gmv : ℚ
  orders : ℚ
  aov : ℚ
  unique_buyers : ℚ
  frequency : ℚ
  gmv_per_poc : ℚ
deriving DecidableEq, Repr

/-- The all-zero dict `calculate_moving_average` returns for an empty
effective window. -/
def zeroMAOut : MAOut :=
  { gmv := 0, orders := 0, aov := 0, unique_buyers := 0, frequency := 0,
    gmv_per_poc := 0 }

/-- `calculate_moving_average(daily_metrics, window)`: clamp the window to
the series length, return zeros when the clamped window is 0, otherwise
average each metric over the last `window` entries (`daily_metrics[-window:]`)
and round to 2 decimals. -/
def calculate_moving_average (daily : List (ℤ × MetricSet)) (window : ℕ) : MAOut :=
  let w := if daily.length < window then daily.length else window
  if w = 0 then zeroMAOut
  else
    let recent := daily.drop (daily.length - w)
    { gmv := round2 ((recent.map (fun p => p.2.total_gmv_usd)).sum / w),
      orders := round2 ((recent.map (fun p => (p.2.orders : ℚ))).sum / w),
      aov := round2 ((recent.map (fun p => p.2.aov_usd)).sum / w),
      unique_buyers := round2 ((recent.map (fun p => (p.2.unique_buyers : ℚ))).sum / w),
      frequency := round2 ((recent.map (fun p => p.2.frequency)).sum / w),
      gmv_per_poc := round2 ((recent.map (fun p => p.2.gmv_per_poc_usd)).sum / w) }

/-- One group of the dict returned by `calculate_channel_metrics`. -/
structure ChannelGroup where
  gmv_usd : ℚ
  orders : ℕ
  buyers : ℕ
  gmv_percent : ℚ
  orders_percent : ℚ
  buyers_percent : ℚ
deriving DecidableEq, Repr

/-- The dict returned by `calculate_channel_metrics`. -/
structure ChannelBreakdown where
  customer : ChannelGroup
  cx_tlp : ChannelGroup
deriving DecidableEq, Repr

/-- The zero group returned on an empty frame. -/
def zeroChannelGroup : ChannelGroup :=
  { gmv_usd := 0, orders := 0, buyers := 0, gmv_percent := 0,
    orders_percent := 0, buyers_percent := 0 }

/-- `calculate_channel_metrics(df, country)`: partition rows into the
customer group (`channel != "CX_TLP"`) and the CX_TLP group
(`channel == "CX_TLP"`), compute per-group gmv/orders/buyers, and their
percentage shares of the whole input's totals, guarding each division by a
positivity test; round gmv to 2 decimals and percentages to 1. -/
def calculate_channel_metrics (l : List OrderRecord) (country : Option String) :
    ChannelBreakdown :=
  if l.isEmpty then { customer := zeroChannelGroup, cx_tlp := zeroChannelGroup }
  else
    let usd_rate := currencyRate country
    let total_gmv := sumGmv l
    let total_gmv_usd := total_gmv / usd_rate
    let total_orders := nunique (l.map (fun r => r.order_number))
    let total_buyers := nunique (l.map (fun r => r.account_id))
    let df_customer := l.filter (fun r => r.channel ≠ "CX_TLP")
    let customer_gmv_usd := sumGmv df_customer / usd_rate
    let customer_orders := nunique (df_customer.map (fun r => r.order_number))
    let customer_buyers := nunique (df_customer.map (fun r => r.account_id))
    let df_cx_tlp := l.filter (fun r => r.channel = "CX_TLP")
    let cx_tlp_gmv_usd := sumGmv df_cx_tlp / usd_rate
    let cx_tlp_orders := nunique (df_cx_tlp.map (fun r => r.order_number))
    let cx_tlp_buyers := nunique (df_cx_tlp.map (fun r => r.account_id))
    let customer_gmv_pct : ℚ :=
      if 0 < total_gmv_usd then customer_gmv_usd / total_gmv_usd * 100 else 0
    let customer_orders_pct : ℚ :=
      if 0 < total_orders then (customer_orders : ℚ) / total_orders * 100 else 0
    let customer_buyers_pct : ℚ :=
      if 0 < total_buyers then (customer_buyers : ℚ) / total_buyers * 100 else 0
    let cx_tlp_gmv_pct : ℚ :=
      if 0 < total_gmv_usd then cx_tlp_gmv_usd / total_gmv_usd * 100 else 0
    let cx_tlp_orders_pct : ℚ :=
      if 0 < total_orders then (cx_tlp_orders : ℚ) / total_orders * 100 else 0
    let cx_tlp_buyers_pct : ℚ :=
      if 0 < total_buyers then (cx_tlp_buyers : ℚ) / total_buyers * 100 else 0
    { customer :=
        { gmv_usd := round2 customer_gmv_usd,
          orders := customer_orders,
          buyers := customer_buyers,
          gmv_percent := round1 customer_gmv_pct,
          orders_percent := round1 customer_orders_pct,
          buyers_percent := round1 customer_buyers_pct },
      cx_tlp :=
        { gmv_usd := round2 cx_tlp_gmv_usd,
          orders := cx_tlp_orders,
          buyers := cx_tlp_buyers,
          gmv_percent := round1 cx_tlp_gmv_pct,
          orders_percent := round1 cx_tlp_orders_pct,
          buyers_percent := round1 cx_tlp_buyers_pct } }

/-- The deduplication key of the reconciliation step:
`drop_duplicates(subset=['order_number'])`. -/
def okey (r : OrderRecord) : String := r.order_number

/-- Helper for `dedupFirst`: drop every row whose key was already seen. -/
def dedupFirstAux (seen : List String) : List OrderRecord → List OrderRecord
  | [] => []
  | r :: rs =>
    if okey r ∈ seen then dedupFirstAux seen rs
    else r :: dedupFirstAux (okey r :: seen) rs

/-- `drop_duplicates(subset=['order_number'], keep='first')`. -/
def dedupFirst (l : List OrderRecord) : List OrderRecord := dedupFirstAux [] l

/-- The month-to-date reconciliation step of `main`: when the historical
(GOLD) slice is empty, fall back to the recent-source slice alone
(`df_mtd = df_all[df_all["date"] >= mtd_start]`, no dedup); otherwise
`pd.concat([df_mtd_gold, df_today_full])` followed by
`drop_duplicates(subset=['order_number'], keep='first')`. -/
def reconcile (H T : List OrderRecord) : List OrderRecord :=
  if H.isEmpty then T else dedupFirst (H ++ T)

/-- Result of `cleanup_old_versions` for one country, over the embedded
timestamps of its versioned artifacts. -/
structure CleanupResult where
  kept : List ℤ
  attempted : List ℤ
  deleted : List ℤ
deriving DecidableEq, Repr

/-- `cleanup_old_versions(keep_versions)` for one country: sort the
versioned files newest-first by embedded timestamp, keep the first
`keep_versions`, attempt to delete each of the rest; a file whose deletion
raises (`fails t = true`) is only logged and the per-file loop continues. -/
def cleanup_old_versions (keep_versions : ℕ) (ts : List ℤ) (fails : ℤ → Bool) :
    CleanupResult :=
  let sorted := (List.insertionSort (fun a b => a ≤ b) ts).reverse
  let toDelete := sorted.drop keep_versions
  { kept := sorted.take keep_versions,
    attempted := toDelete,
    deleted := toDelete.filter (fun t => !(fails t)) }

/-- Observable outcome of one `main()` run. -/
structure RunOutcome where
  processed : List String
  manifest_written : Bool
  manifest_countries : List String
  exit_code : ℕ
deriving DecidableEq, Repr

/-- The per-country loop of `main`: countries are processed in order and each
snapshot is saved inside the single `try` block; `save_json_file` re-raises
on failure, the lone `except` around the whole loop runs `sys.exit(1)`, so
the first failing save ends the run before any later country is processed
and before the manifest file is written. -/
def processCountries (saveFails : String → Bool) :
    List String → List String → List String × Bool
  | acc, [] => (acc, true)
  | acc, c :: cs =>
    if saveFails c then (acc, false)
    else processCountries saveFails (acc ++ [c]) cs

/-- `main()`: run the loop; only a fully successful pass reaches the
manifest write (and the retention cleanup) at the end of the `try` block. -/
def runExtraction (countries : List String) (saveFails : String → Bool) :
    RunOutcome :=
  match processCountries saveFails [] countries with
  | (done, true) =>
    { processed := done, manifest_written := true, manifest_countries := done,
      exit_code := 0 }
  | (done, false) =>
    { processed := done, manifest_written := false, manifest_countries := [],
      exit_code := 1 }

/-- `df["order_gmv"] = pd.to_numeric(df["order_gmv"], errors='coerce')` as a
per-record transformation. -/
def coerceRecord (r : OrderRecord) : OrderRecord :=
  { r with order_gmv := coerceGmv r.order_gmv }

/-- `calculate_metrics` together with the post-call state of its input
dataframe: the empty early-return leaves the frame untouched; otherwise the
function assigns the coerced `order_gmv` column in place on the caller's
frame (no `df.copy()` is taken). -/
def calculate_metrics_st (l : List OrderRecord) (country : Option String) :
    MetricSet × List OrderRecord :=
  if l.isEmpty then (calculate_metrics l country, l)
  else (calculate_metrics l country, l.map coerceRecord)

/-- `calculate_channel_metrics` together with the post-call state of its
input: the function takes `df = df.copy()` before any assignment, so the
caller's frame is unchanged. -/
def calculate_channel_metrics_st (l : List OrderRecord) (country : Option String) :
    ChannelBreakdown × List OrderRecord :=
  (calculate_channel_metrics l country, l)

/-- `calculate_daily_metrics` together with the post-call state of its
input: it also copies first. -/
def calculate_daily_metrics_st (l : List OrderRecord) (country : Option String) :
    List (ℤ × MetricSet) × List OrderRecord :=
  (calculate_daily_metrics l country, l)

/-- `calculate_moving_average` together with the post-call state of its
input: it only reads its argument. -/
def calculate_moving_average_st (daily : List (ℤ × MetricSet)) (window : ℕ) :
    MAOut × List (ℤ × MetricSet) :=
  (calculate_moving_average daily window, daily)

/-- Modelled from the spec: `calculate_metrics` without any rounding, the
per-day values the spec says the moving averages should be computed from
("rounding happens once, at output construction, not on intermediate values
used in further arithmetic"). -/
def calculate_metrics_unrounded (l : List OrderRecord) (country : Option String) :
    MetricSet :=
  if l.isEmpty then zeroMetricSet
  else
    let total_gmv := sumGmv l
    let orders := nunique (l.map (fun r => r.order_number))
    let unique_buyers := nunique (l.map (fun r => r.account_id))
    let unique_vendors := nunique (l.map (fun r => r.vendor_account_id))
    let aov : ℚ := if 0 < orders then total_gmv / orders else 0
    let frequency : ℚ := if 0 < unique_buyers then (orders : ℚ) / unique_buyers else 0
    let gmv_per_poc : ℚ := if 0 < unique_vendors then total_gmv / unique_vendors else 0
    let usd_rate := currencyRate country
    { total_gmv := total_gmv,
      total_gmv_usd := total_gmv / usd_rate,
      orders := orders,
      unique_buyers := unique_buyers,
      unique_vendors := unique_vendors,
      aov := aov,
      aov_usd := aov / usd_rate,
      frequency := frequency,
      gmv_per_poc := gmv_per_poc,
      gmv_per_poc_usd := gmv_per_poc / usd_rate }

/-- Round every float field of a per-day dict to 2 decimals, as
`calculate_metrics` does at its output construction. -/
def roundMetricSet (m : MetricSet) : MetricSet :=
  { total_gmv := round2 m.total_gmv,
    total_gmv_usd := round2 m.total_gmv_usd,
    orders := m.orders,
    unique_buyers := m.unique_buyers,
    unique_vendors := m.unique_vendors,
    aov := round2 m.aov,
    aov_usd := round2 m.aov_usd,
    frequency := round2 m.frequency,
    gmv_per_poc := round2 m.gmv_per_poc,
    gmv_per_poc_usd := round2 m.gmv_per_poc_usd }

/-- Modelled from the spec: the daily series built from unrounded per-day
values, the input the spec prescribes for the window computations. -/
def calculate_daily_metrics_unrounded (l : List OrderRecord)
    (country : Option String) : List (ℤ × MetricSet) :=
  if l.isEmpty then []
  else (sortAsc ((l.map utcDay).dedup)).map
    (fun d => (d, calculate_metrics_unrounded (l.filter (fun r => utcDay r = d)) country))

/-- Modelled from the spec: the moving average taken "over exactly the last
`window` entries of the series", written independently of the clamping logic
via take-on-the-reversed-series, for comparison with
`calculate_moving_average`. -/
def maOverLast (daily : List (ℤ × MetricSet)) (window : ℕ) : MAOut :=
  let recent := (daily.reverse.take window).reverse
  { gmv := round2 ((recent.map (fun p => p.2.total_gmv_usd)).sum / window),
    orders := round2 ((recent.map (fun p => (p.2.orders : ℚ))).sum / window),
    aov := round2 ((recent.map (fun p => p.2.aov_usd)).sum / window),
    unique_buyers :=
      round2 ((recent.map (fun p => (p.2.unique_buyers : ℚ))).sum / window),
    frequency := round2 ((recent.map (fun p => p.2.frequency)).sum / window),
    gmv_per_poc :=
      round2 ((recent.map (fun p => p.2.gmv_per_poc_usd)).sum / window) }

/-- Scenario-A row 1: order O1, value 100, buyer B1, vendor V1. -/
def scenA1 : OrderRecord :=
  { country := "X", placement_utc := 0, order_number := "O1",
    order_gmv := .num 100, account_id := "B1", vendor_account_id := "V1",
    order_status := "PLACED", channel := "B2B_APP" }

/-- Scenario-A row 2: order O2, value 200, buyer B2, same vendor. -/
def scenA2 : OrderRecord :=
  { country := "X", placement_utc := 60, order_number := "O2",
    order_gmv := .num 200, account_id := "B2", vendor_account_id := "V1",
    order_status := "PLACED", channel := "B2B_APP" }

/-- Scenario-A row 3: order O3, value "bad" (fails numeric coercion),
buyer B1 again, same vendor. -/
def scenA3 : OrderRecord :=
  { country := "X", placement_utc := 120, order_number := "O3",
    order_gmv := .bad, account_id := "B1", vendor_account_id := "V1",
    order_status := "PLACED", channel := "B2B_APP" }

/-- A PH order placed 1970-01-01 23:30 UTC = 1970-01-02 07:30 local. -/
def nearMidnightA : OrderRecord :=
  { country := "PH", placement_utc := 84600, order_number := "A1",
    order_gmv := .num 100, account_id := "B1", vendor_account_id := "V1",
    order_status := "PLACED", channel := "B2B_APP" }

/-- A PH order placed 1970-01-02 00:30 UTC = 1970-01-02 08:30 local:
same local calendar date as `nearMidnightA`, next UTC date. -/
def nearMidnightB : OrderRecord :=
  { country := "PH", placement_utc := 88200, order_number := "A2",
    order_gmv := .num 200, account_id := "B2", vendor_account_id := "V2",
    order_status := "PLACED", channel := "B2B_APP" }

/-- A historical-source (GOLD) copy of order S1 with gross value 100. -/
def histRow : OrderRecord :=
  { country := "PH", placement_utc := 0, order_number := "S1",
    order_gmv := .num 100, account_id := "B1", vendor_account_id := "V1",
    order_status := "PLACED", channel := "B2B_APP" }

/-- A recent-source (silver) copy of the same order S1 with an adjusted
gross value 175. -/
def recentRow : OrderRecord :=
  { country := "PH", placement_utc := 3600, order_number := "S1",
    order_gmv := .num 175, account_id := "B1", vendor_account_id := "V1",
    order_status := "PLACED", channel := "B2B_APP" }

/-- A recent-source row that appears twice in a raw (not yet deduplicated)
today-slice. -/
def dupRow : OrderRecord :=
  { country := "PH", placement_utc := 0, order_number := "D1",
    order_gmv := .num 50, account_id := "B1", vendor_account_id := "V1",
    order_status := "PLACED", channel := "B2B_APP" }

/-- A row whose `order_gmv` fails numeric coercion, for observing the
in-place column assignment of `calculate_metrics`. -/
def badGmvRow : OrderRecord :=
  { country := "X", placement_utc := 0, order_number := "O9",
    order_gmv := .bad, account_id := "B9", vendor_account_id := "V9",
    order_status := "PLACED", channel := "B2B_APP" }

/-- A buyer B1 order through a customer channel. -/
def chRow1 : OrderRecord :=
  { country := "X", placement_utc := 0, order_number := "O1",
    order_gmv := .num 100, account_id := "B1", vendor_account_id := "V1",
    order_status := "PLACED", channel := "B2B_APP" }

/-- The same buyer B1 ordering again through the growth channel CX_TLP. -/
def chRow2 : OrderRecord :=
  { country := "X", placement_utc := 60, order_number := "O2",
    order_gmv := .num 100, account_id := "B1", vendor_account_id := "V1",
    order_status := "PLACED", channel := "CX_TLP" }

/-- Day-1 order 1 of 3 (gross values 3, 3, 4 for a day total of 10, so the
day's AOV is the non-terminating 10/3). -/
def trendD1a : OrderRecord :=
  { country := "X", placement_utc := 0, order_number := "O1",
    order_gmv := .num 3, account_id := "B1", vendor_account_id := "V1",
    order_status := "PLACED", channel := "B2B_APP" }

/-- Day-1 order 2 of 3. -/
def trendD1b : OrderRecord :=
  { country := "X", placement_utc := 60, order_number := "O2",
    order_gmv := .num 3, account_id := "B1", vendor_account_id := "V1",
    order_status := "PLACED", channel := "B2B_APP" }

/-- Day-1 order 3 of 3. -/
def trendD1c : OrderRecord :=
  { country := "X", placement_utc := 120, order_number := "O3",
    order_gmv := .num 4, account_id := "B1", vendor_account_id := "V1",
    order_status := "PLACED", channel := "B2B_APP" }

/-- Day-2 single order with gross value 0, so the day's AOV is 0. -/
def trendD2 : OrderRecord :=
  { country := "X", placement_utc := 86400, order_number := "O4",
    order_gmv := .num 0, account_id := "B1", vendor_account_id := "V1",
    order_status := "PLACED", channel := "B2B_APP" }

theorem ratFloor_eq_intFloor (x : ℚ) : (x.floor : ℤ) = ⌊x⌋ :=
  (Rat.floor_def' x).trans Rat.floor_def.symm

theorem abs_roundHE_sub_le (x : ℚ) : |(roundHE x : ℚ) - x| ≤ 1/2 := by
  have h0 : ((⌊x⌋ : ℤ) : ℚ) ≤ x := Int.floor_le x
  have h1 : x < (⌊x⌋ : ℚ) + 1 := Int.lt_floor_add_one x
  unfold roundHE
  rw [ratFloor_eq_intFloor]
  rcases lt_trichotomy (x - (⌊x⌋ : ℚ)) (1/2) with h | h | h
  · rw [if_pos h, abs_le]
    refine ⟨by linarith, by linarith⟩
  · rw [if_neg (by rw [h]; exact lt_irrefl _), if_neg (by rw [← h]; exact lt_irrefl _)]
    by_cases he : ⌊x⌋ % 2 = 0
    · rw [if_pos he, abs_le]
      refine ⟨by linarith, by linarith⟩
    · rw [if_neg he, abs_le]
      refine ⟨by push_cast; linarith, by push_cast; linarith⟩
  · rw [if_neg (by linarith), if_pos h, abs_le]
    refine ⟨by push_cast; linarith, by push_cast; linarith⟩

theorem abs_round2_sub_le (x : ℚ) : |round2 x - x| ≤ 1/200 := by
  have h := abs_roundHE_sub_le (x * 100)
  have h2 : round2 x - x = ((roundHE (x * 100) : ℚ) - x * 100) / 100 := by
    unfold round2; ring
  rw [h2, abs_div]
  rw [show |(100:ℚ)| = 100 by norm_num]
  linarith [h]

theorem abs_round1_sub_le (x : ℚ) : |round1 x - x| ≤ 1/20 := by
  have h := abs_roundHE_sub_le (x * 10)
  have h2 : round1 x - x = ((roundHE (x * 10) : ℚ) - x * 10) / 10 := by
    unfold round1; ring
  rw [h2, abs_div]
  rw [show |(10:ℚ)| = 10 by norm_num]
  linarith [h]

theorem round2_zero : round2 0 = 0 := by with_unfolding_all decide

theorem round1_zero : round1 0 = 0 := by with_unfolding_all decide

theorem processCountries_eq (f : String → Bool) :
    ∀ (cs : List String) (acc : List String),
    processCountries f acc cs
      = (acc ++ cs.takeWhile (fun c => !(f c)), cs.all (fun c => !(f c))) := by
  intro cs
  induction cs with
  | nil => intro acc; simp [processCountries]
  | cons c cs ih =>
    intro acc
    by_cases hc : f c
    · simp [processCountries, hc]
    · simp [processCountries, hc, ih]

/-- Claim C1, counterexample: on scenario A's three rows (values 100, 200
and a coercion failure; 2 distinct buyers, 1 vendor) the code returns
`orders = 3`, not the claimed `order_count = 2` — the malformed row is still
counted by `df["order_number"].nunique()`. -/
theorem claim_C1_counterexample :
    ¬ ((calculate_metrics [scenA1, scenA2, scenA3] (some "X")).orders = 2) := by
  with_unfolding_all decide

/-- Claim C1, amended: on scenario A's three rows, `calculate_metrics`
excludes the uncoercible value from the GMV sum (`total_gmv = 300`) but
still counts the malformed row as an order (`orders = 3`, with 2 distinct
buyers and 1 vendor). -/
theorem claim_C1_amended :
    (calculate_metrics [scenA1, scenA2, scenA3] (some "X")).orders = 3 ∧
    (calculate_metrics [scenA1, scenA2, scenA3] (some "X")).total_gmv = 300 ∧
    (calculate_metrics [scenA1, scenA2, scenA3] (some "X")).total_gmv_usd = 300 ∧
    (calculate_metrics [scenA1, scenA2, scenA3] (some "X")).unique_buyers = 2 ∧
    (calculate_metrics [scenA1, scenA2, scenA3] (some "X")).unique_vendors = 1 := by
  with_unfolding_all decide

/-- Claim C2, counterexample: two PH records sharing the country-local
calendar date (07:30 and 08:30 local on 1970-01-02) are split into two
different daily buckets, because `calculate_daily_metrics` buckets by the
UTC date of `placement_date`, not the country-local date. -/
theorem claim_C2_counterexample :
    localDay nearMidnightA = localDay nearMidnightB ∧
    (calculate_daily_metrics [nearMidnightA, nearMidnightB] (some "PH")).map
      Prod.fst = [0, 1] ∧
    (calculate_daily_metrics [nearMidnightA, nearMidnightB] (some "PH")).map
      (fun p => p.2.orders) = [1, 1] := by
  with_unfolding_all decide

/-- Claim C2, amended: the daily trend series buckets each record by the UTC
calendar date derived from its placement timestamp: the series' dates are
exactly the distinct UTC dates of the input in ascending order, each point's
metrics are computed over exactly the records having that UTC date, and each
record's UTC date appears in the series. -/
theorem claim_C2_amended : ∀ (l : List OrderRecord) (c : Option String),
    (calculate_daily_metrics l c).map Prod.fst = sortAsc ((l.map utcDay).dedup) ∧
    (∀ p, p ∈ calculate_daily_metrics l c →
      p.2 = calculate_metrics (l.filter (fun r => utcDay r = p.1)) c) ∧
    (∀ r, r ∈ l → utcDay r ∈ (calculate_daily_metrics l c).map Prod.fst) := by
  intro l c
  have hfst : (calculate_daily_metrics l c).map Prod.fst
      = sortAsc ((l.map utcDay).dedup) := by
    by_cases hl : l.isEmpty
    · have hln : l = [] := List.isEmpty_iff.mp hl
      subst hln
      rfl
    · unfold calculate_daily_metrics
      rw [if_neg hl, List.map_map]
      exact List.map_id _
  refine ⟨hfst, ?_, ?_⟩
  · intro p hp
    by_cases hl : l.isEmpty
    · have hln : l = [] := List.isEmpty_iff.mp hl
      subst hln
      simp [calculate_daily_metrics] at hp
    · unfold calculate_daily_metrics at hp
      rw [if_neg hl] at hp
      obtain ⟨d, _, rfl⟩ := List.mem_map.mp hp
      rfl
  · intro r hr
    rw [hfst]
    have h1 : utcDay r ∈ (l.map utcDay).dedup :=
      List.mem_dedup.mpr (List.mem_map_of_mem _ hr)
    simpa [sortAsc, List.mem_insertionSort] using h1

/-- Claim C2, amended, witness at the two near-midnight PH records. -/
theorem claim_C2_amended_witness :
    (calculate_daily_metrics [nearMidnightA, nearMidnightB] (some "PH")).map
      Prod.fst = sortAsc (([nearMidnightA, nearMidnightB].map utcDay).dedup) ∧
    utcDay nearMidnightA ∈
      (calculate_daily_metrics [nearMidnightA, nearMidnightB] (some "PH")).map
        Prod.fst :=
  ⟨(claim_C2_amended [nearMidnightA, nearMidnightB] (some "PH")).1,
   (claim_C2_amended [nearMidnightA, nearMidnightB] (some "PH")).2.2
     nearMidnightA (by decide)⟩

/-- Claim C3, counterexample: with countries `["PH", "VN"]` and the PH
snapshot save failing, the run does not process VN at all — `main`'s single
`try`/`except` aborts the whole run on the first `ArtifactWriteFailure`. -/
theorem claim_C3_counterexample :
    ¬ ("VN" ∈ (runExtraction ["PH", "VN"] (fun c => c == "PH")).processed) := by
  decide

/-- Claim C3, amended: if persisting any country's snapshot fails, the run
aborts with exit code 1 before the countries after the failing one are
processed, and the manifest file is not rewritten at all, so every manifest
entry (the failed country's included) is left unchanged, still pointing at
previously written artifacts. -/
theorem claim_C3_amended : ∀ (countries : List String) (saveFails : String → Bool),
    (∃ c, c ∈ countries ∧ saveFails c = true) →
    (runExtraction countries saveFails).manifest_written = false ∧
    (runExtraction countries saveFails).exit_code = 1 ∧
    (runExtraction countries saveFails).processed
      = countries.takeWhile (fun c => !(saveFails c)) := by
  intro countries f hex
  obtain ⟨c, hc, hfc⟩ := hex
  have hall : countries.all (fun x => !(f x)) = false := by
    cases hall : countries.all (fun x => !(f x)) with
    | false => rfl
    | true =>
      have := List.all_eq_true.mp hall c hc
      rw [hfc] at this
      exact absurd this (by decide)
  unfold runExtraction
  rw [processCountries_eq, hall]
  exact ⟨rfl, rfl, by simp⟩

/-- Claim C3, amended, witness: the concrete two-country run with the PH
save failing. -/
theorem claim_C3_amended_witness :
    (runExtraction ["PH", "VN"] (fun c => c == "PH")).manifest_written = false ∧
    (runExtraction ["PH", "VN"] (fun c => c == "PH")).exit_code = 1 ∧
    (runExtraction ["PH", "VN"] (fun c => c == "PH")).processed
      = ["PH", "VN"].takeWhile (fun c => !(c == "PH")) :=
  claim_C3_amended ["PH", "VN"] (fun c => c == "PH") ⟨"PH", by decide, by decide⟩

/-- Claim C10, counterexample: `calculate_metrics` does not leave its input
records unchanged — on a row whose `order_gmv` fails coercion, the in-place
`df["order_gmv"] = pd.to_numeric(...)` assignment rewrites the caller's
frame. -/
theorem claim_C10_counterexample :
    ¬ ((calculate_metrics_st [badGmvRow] none).2 = [badGmvRow]) := by
  with_unfolding_all decide

/-- Claim C10, amended: `calculate_channel_metrics`,
`calculate_daily_metrics` and `calculate_moving_average` leave their inputs
unchanged (the first two copy the frame before assigning, the third only
reads); `calculate_metrics` leaves its input unchanged only when every
row's `order_gmv` is already in coerced form, because it assigns the coerced
column in place; every engine's result is a pure function of its
arguments. -/
theorem claim_C10_amended : ∀ (l : List OrderRecord) (c : Option String)
    (daily : List (ℤ × MetricSet)) (w : ℕ),
    (calculate_channel_metrics_st l c).2 = l ∧
    (calculate_daily_metrics_st l c).2 = l ∧
    (calculate_moving_average_st daily w).2 = daily ∧
    ((∀ r, r ∈ l → coerceGmv r.order_gmv = r.order_gmv) →
      (calculate_metrics_st l c).2 = l) := by
  intro l c daily w
  refine ⟨rfl, rfl, rfl, ?_⟩
  intro h
  unfold calculate_metrics_st
  by_cases hl : l.isEmpty
  · rw [if_pos hl]
  · rw [if_neg hl]
    show l.map coerceRecord = l
    induction l with
    | nil => rfl
    | cons r rs ih =>
      have hr : coerceRecord r = r := by
        unfold coerceRecord
        rw [h r (List.mem_cons_self r rs)]
      simp only [List.map_cons, hr, List.cons.injEq, true_and]
      by_cases hrs : rs.isEmpty
      · have : rs = [] := List.isEmpty_iff.mp hrs
        subst this
        rfl
      · exact ih (fun x hx => h x (List.mem_cons_of_mem r hx)) hrs

/-- Claim C10, amended, witness at a one-row frame whose value is already
numeric. -/
theorem claim_C10_amended_witness :
    (calculate_metrics_st [scenA1] none).2 = [scenA1] :=
  (claim_C10_amended [scenA1] none [] 0).2.2.2 (by intro r hr; fin_cases hr; rfl)

theorem dedupFirstAux_cons (s : List String) (r : OrderRecord)
    (rs : List OrderRecord) :
    dedupFirstAux s (r :: rs)
      = if okey r ∈ s then dedupFirstAux s rs
        else r :: dedupFirstAux (okey r :: s) rs := rfl

theorem dedupFirstAux_eq_nil (m : List OrderRecord) :
    ∀ (s : List String), (∀ r ∈ m, okey r ∈ s) → dedupFirstAux s m = [] := by
  induction m with
  | nil => intro s _; rfl
  | cons r rs ih =>
    intro s h
    unfold dedupFirstAux
    rw [if_pos (h r (List.mem_cons_self r rs))]
    exact ih s (fun x hx => h x (List.mem_cons_of_mem r hx))

theorem okey_mem_dedupFirstAux :
    ∀ (l : List OrderRecord) (s : List String) (k : String),
    (k ∈ (dedupFirstAux s l).map okey) ↔ (k ∈ l.map okey ∧ k ∉ s) := by
  intro l
  induction l with
  | nil => intro s k; simp [dedupFirstAux]
  | cons a as ih =>
    intro s k
    unfold dedupFirstAux
    by_cases ha : okey a ∈ s
    · rw [if_pos ha, ih]
      simp only [List.map_cons, List.mem_cons]
      constructor
      · rintro ⟨h1, h2⟩
        exact ⟨Or.inr h1, h2⟩
      · rintro ⟨h1 | h1, h2⟩
        · exact absurd (h1 ▸ ha) h2
        · exact ⟨h1, h2⟩
    · rw [if_neg ha]
      simp only [List.map_cons, List.mem_cons, ih]
      constructor
      · rintro (h1 | ⟨h2, h3⟩)
        · subst h1
          exact ⟨Or.inl rfl, ha⟩
        · refine ⟨Or.inr h2, fun hk => h3 (Or.inr hk)⟩
      · rintro ⟨h1 | h1, h2⟩
        · exact Or.inl h1
        · by_cases hk : k = okey a
          · exact Or.inl hk
          · refine Or.inr ⟨h1, ?_⟩
            rintro (h3 | h3)
            · exact hk h3
            · exact h2 h3

theorem nodup_okeys_dedupFirstAux :
    ∀ (l : List OrderRecord) (s : List String),
    ((dedupFirstAux s l).map okey).Nodup := by
  intro l
  induction l with
  | nil => intro s; simp [dedupFirstAux]
  | cons a as ih =>
    intro s
    unfold dedupFirstAux
    by_cases ha : okey a ∈ s
    · rw [if_pos ha]
      exact ih s
    · rw [if_neg ha]
      simp only [List.map_cons, List.nodup_cons]
      refine ⟨?_, ih _⟩
      intro hmem
      exact ((okey_mem_dedupFirstAux as (okey a :: s) (okey a)).mp hmem).2
        (List.mem_cons_self _ _)

theorem dedupFirstAux_eq_self :
    ∀ (l : List OrderRecord) (s : List String),
    (l.map okey).Nodup → (∀ r ∈ l, okey r ∉ s) → dedupFirstAux s l = l := by
  intro l
  induction l with
  | nil => intro s _ _; rfl
  | cons a as ih =>
    intro s hnd hs
    rw [List.map_cons] at hnd
    have hnd' := List.nodup_cons.mp hnd
    unfold dedupFirstAux
    rw [if_neg (hs a (List.mem_cons_self a as))]
    congr 1
    apply ih _ hnd'.2
    intro r hr hin
    rcases List.mem_cons.mp hin with h1 | h1
    · exact hnd'.1 (h1 ▸ List.mem_map_of_mem okey hr)
    · exact hs r (List.mem_cons_of_mem a hr) h1

theorem mem_of_mem_dedupFirstAux :
    ∀ (l : List OrderRecord) (s : List String) (r : OrderRecord),
    r ∈ dedupFirstAux s l → r ∈ l := by
  intro l
  induction l with
  | nil => intro s r h; exact absurd h (List.not_mem_nil r)
  | cons a as ih =>
    intro s r h
    unfold dedupFirstAux at h
    by_cases ha : okey a ∈ s
    · rw [if_pos ha] at h
      exact List.mem_cons_of_mem a (ih s r h)
    · rw [if_neg ha] at h
      rcases List.mem_cons.mp h with h1 | h1
      · exact h1 ▸ List.mem_cons_self a as
      · exact List.mem_cons_of_mem a (ih _ r h1)

theorem dedupFirstAux_append_absorb :
    ∀ (l m : List OrderRecord) (s : List String),
    (∀ r ∈ m, okey r ∈ s ∨ okey r ∈ l.map okey) →
    dedupFirstAux s (l ++ m) = dedupFirstAux s l := by
  intro l
  induction l with
  | nil =>
    intro m s h
    simp only [List.nil_append]
    apply dedupFirstAux_eq_nil
    intro r hr
    rcases h r hr with h1 | h1
    · exact h1
    · simp at h1
  | cons a as ih =>
    intro m s h
    simp only [List.cons_append]
    unfold dedupFirstAux
    by_cases ha : okey a ∈ s
    · rw [if_pos ha, if_pos ha]
      apply ih
      intro r hr
      rcases h r hr with h1 | h1
      · exact Or.inl h1
      · rw [List.map_cons] at h1
        rcases List.mem_cons.mp h1 with h2 | h2
        · exact Or.inl (h2 ▸ ha)
        · exact Or.inr h2
    · rw [if_neg ha, if_neg ha]
      congr 1
      apply ih
      intro r hr
      rcases h r hr with h1 | h1
      · exact Or.inl (List.mem_cons_of_mem _ h1)
      · rw [List.map_cons] at h1
        rcases List.mem_cons.mp h1 with h2 | h2
        · exact Or.inl (h2 ▸ List.mem_cons_self _ _)
        · exact Or.inr h2

theorem dedupFirstAux_mem_left :
    ∀ (H T : List OrderRecord) (s : List String) (r : OrderRecord),
    r ∈ dedupFirstAux s (H ++ T) → okey r ∈ H.map okey → r ∈ H := by
  intro H
  induction H with
  | nil => intro T s r _ hk; simp at hk
  | cons a as ih =>
    intro T s r hr hk
    simp only [List.cons_append] at hr
    unfold dedupFirstAux at hr
    by_cases ha : okey a ∈ s
    · rw [if_pos ha] at hr
      have h2 := (okey_mem_dedupFirstAux (as ++ T) s (okey r)).mp
        (List.mem_map_of_mem okey hr)
      rw [List.map_cons] at hk
      rcases List.mem_cons.mp hk with hk1 | hk1
      · exact absurd (hk1 ▸ ha) h2.2
      · exact List.mem_cons_of_mem a (ih T s r hr hk1)
    · rw [if_neg ha] at hr
      rcases List.mem_cons.mp hr with h1 | h1
      · exact h1 ▸ List.mem_cons_self a as
      · have h2 := (okey_mem_dedupFirstAux (as ++ T) (okey a :: s) (okey r)).mp
          (List.mem_map_of_mem okey h1)
        rw [List.map_cons] at hk
        rcases List.mem_cons.mp hk with hk1 | hk1
        · exact absurd (hk1 ▸ List.mem_cons_self (okey a) s) h2.2
        · exact List.mem_cons_of_mem a (ih T (okey a :: s) r h1 hk1)

theorem exists_mem_dedupFirstAux (l : List OrderRecord) (s : List String)
    (k : String) (h1 : k ∈ l.map okey) (h2 : k ∉ s) :
    ∃ r, r ∈ dedupFirstAux s l ∧ okey r = k := by
  have := (okey_mem_dedupFirstAux l s k).mpr ⟨h1, h2⟩
  obtain ⟨r, hr, hrk⟩ := List.mem_map.mp this
  exact ⟨r, hr, hrk⟩

/-- Claim C5: `reconcile` keeps, for every order id present in both slices,
the historical record and never the recent one (every surviving record
whose id occurs in the historical slice is an element of the historical
slice), and when the historical slice is empty the result is the recent
slice alone, untouched. -/
theorem claim_C5 : ∀ (H T : List OrderRecord) (id : String),
    (id ∈ H.map okey → id ∈ T.map okey →
      (∃ r, r ∈ reconcile H T ∧ r ∈ H ∧ okey r = id) ∧
      (∀ r, r ∈ reconcile H T → okey r = id → r ∈ H)) ∧
    reconcile [] T = T := by
  intro H T id
  refine ⟨?_, rfl⟩
  intro hH _
  cases H with
  | nil => simp at hH
  | cons a as =>
    have hrec : reconcile (a :: as) T = dedupFirstAux [] ((a :: as) ++ T) := rfl
    constructor
    · have h1 : id ∈ ((a :: as) ++ T).map okey := by
        rw [List.map_append]
        exact List.mem_append_left _ hH
      obtain ⟨r, hr, hrk⟩ :=
        exists_mem_dedupFirstAux _ [] id h1 (List.not_mem_nil id)
      refine ⟨r, ?_, ?_, hrk⟩
      · rw [hrec]
        exact hr
      · exact dedupFirstAux_mem_left _ T [] r hr (hrk ▸ hH)
    · intro r hr hrk
      rw [hrec] at hr
      exact dedupFirstAux_mem_left _ T [] r hr (hrk ▸ hH)

/-- Claim C5, witness: order S1 present in both slices with differing gross
values resolves to the historical copy; an empty historical slice yields
the recent slice unchanged. -/
theorem claim_C5_witness :
    (∃ r, r ∈ reconcile [histRow] [recentRow] ∧ r ∈ [histRow] ∧ okey r = "S1") ∧
    (∀ r, r ∈ reconcile [histRow] [recentRow] → okey r = "S1" → r ∈ [histRow]) ∧
    reconcile [] [recentRow] = [recentRow] :=
  ⟨((claim_C5 [histRow] [recentRow] "S1").1 (by decide) (by decide)).1,
   ((claim_C5 [histRow] [recentRow] "S1").1 (by decide) (by decide)).2,
   (claim_C5 [] [recentRow] "S1").2⟩

/-- Claim C6, counterexample: with an empty historical slice and a raw
today-slice containing a duplicated order row, re-merging already-merged
data is not a no-op: the first merge falls back to the recent slice
unfiltered (duplicate kept), the second merge deduplicates it. -/
theorem claim_C6_counterexample :
    ¬ (reconcile (reconcile [] [dupRow, dupRow]) [dupRow, dupRow]
        = reconcile [] [dupRow, dupRow]) := by
  with_unfolding_all decide

/-- Claim C6, amended: reconciliation is idempotent whenever the today-slice
carries no duplicate order ids (which the recent source's QUALIFY
deduplication guarantees): `reconcile (reconcile H T) T = reconcile H T`. -/
theorem claim_C6_amended : ∀ (H T : List OrderRecord),
    (T.map okey).Nodup →
    reconcile (reconcile H T) T = reconcile H T := by
  intro H T hT
  cases H with
  | nil =>
    show reconcile T T = T
    cases T with
    | nil => rfl
    | cons t ts =>
      show dedupFirstAux [] ((t :: ts) ++ (t :: ts)) = t :: ts
      rw [dedupFirstAux_append_absorb]
      · exact dedupFirstAux_eq_self _ [] hT (fun r _ => List.not_mem_nil _)
      · intro r hr
        exact Or.inr (List.mem_map_of_mem okey hr)
  | cons a as =>
    have hcons : dedupFirst ((a :: as) ++ T)
        = a :: dedupFirstAux [okey a] (as ++ T) := by
      show dedupFirstAux [] (a :: (as ++ T)) = _
      rw [dedupFirstAux_cons, if_neg (List.not_mem_nil _)]
    show reconcile (dedupFirst ((a :: as) ++ T)) T = dedupFirst ((a :: as) ++ T)
    rw [hcons]
    show dedupFirstAux [] ((a :: dedupFirstAux [okey a] (as ++ T)) ++ T)
        = a :: dedupFirstAux [okey a] (as ++ T)
    rw [dedupFirstAux_append_absorb]
    · rw [← hcons]
      apply dedupFirstAux_eq_self
      · exact nodup_okeys_dedupFirstAux _ []
      · intro r _
        exact List.not_mem_nil _
    · intro r hr
      right
      by_cases hk : okey r = okey a
      · simp [hk]
      · simp only [List.map_cons, List.mem_cons]
        right
        rw [okey_mem_dedupFirstAux]
        constructor
        · rw [List.map_append]
          exact List.mem_append_right _ (List.mem_map_of_mem okey hr)
        · intro hin
          rcases List.mem_cons.mp hin with h1 | h1
          · exact hk h1
          · exact absurd h1 (List.not_mem_nil _)

/-- Claim C6, amended, witness: idempotence at a concrete one-row historical
slice and one-row today-slice. -/
theorem claim_C6_amended_witness :
    reconcile (reconcile [histRow] [nearMidnightB]) [nearMidnightB]
      = reconcile [histRow] [nearMidnightB] :=
  claim_C6_amended [histRow] [nearMidnightB] (by decide)

theorem takeLast_eq_drop (s : List (ℤ × MetricSet)) (w : ℕ) :
    (s.reverse.take w).reverse = s.drop (s.length - w) := by
  rw [List.take_reverse, List.reverse_reverse]

/-- Claim C7: `calculate_moving_average` clamps an oversized window to the
series length, returns the zero dict on an empty series, and otherwise
averages exactly the last `window` entries of the series. -/
theorem claim_C7 : ∀ (s : List (ℤ × MetricSet)) (w : ℕ),
    (s.length < w → calculate_moving_average s w
      = calculate_moving_average s s.length) ∧
    (s = [] → calculate_moving_average s w = zeroMAOut) ∧
    (0 < w → w ≤ s.length → calculate_moving_average s w = maOverLast s w) := by
  intro s w
  refine ⟨?_, ?_, ?_⟩
  · intro h
    unfold calculate_moving_average
    rw [if_pos h, if_neg (lt_irrefl s.length)]
  · intro h
    subst h
    unfold calculate_moving_average
    rcases Nat.eq_zero_or_pos w with h0 | h0
    · subst h0
      rfl
    · rw [if_pos (show List.length ([] : List (ℤ × MetricSet)) < w from h0)]
      rfl
  · intro h0 hle
    unfold calculate_moving_average maOverLast
    rw [if_neg (not_lt.mpr hle), if_neg (Nat.pos_iff_ne_zero.mp h0),
      takeLast_eq_drop]

/-- Claim C7, witness: a two-point series with an oversized window of 7, the
empty series, and an exact two-day window. -/
theorem claim_C7_witness :
    (calculate_moving_average [(0, zeroMetricSet), (1, zeroMetricSet)] 7
      = calculate_moving_average [(0, zeroMetricSet), (1, zeroMetricSet)] 2) ∧
    (calculate_moving_average ([] : List (ℤ × MetricSet)) 7 = zeroMAOut) ∧
    (calculate_moving_average [(0, zeroMetricSet), (1, zeroMetricSet)] 2
      = maOverLast [(0, zeroMetricSet), (1, zeroMetricSet)] 2) :=
  ⟨((claim_C7 [(0, zeroMetricSet), (1, zeroMetricSet)] 7).1 (by decide)).trans
     (by rfl),
   (claim_C7 ([] : List (ℤ × MetricSet)) 7).2.1 rfl,
   (claim_C7 [(0, zeroMetricSet), (1, zeroMetricSet)] 2).2.2 (by decide)
     (by decide)⟩

/-- Claim C9: retention with `K=5` over 8 versioned artifacts attempts to
delete exactly 3 files, keeps 5, every deleted timestamp is older than every
kept one (so the 3 oldest go and the 5 most recent remain), kept and deleted
together are exactly the input files, per-file deletion failures only shrink
the set of successfully deleted files, and which files are kept or attempted
does not depend on the failures — the loop never aborts. -/
theorem claim_C9 : ∀ (ts : List ℤ) (fails : ℤ → Bool),
    ts.length = 8 → ts.Nodup →
    (cleanup_old_versions 5 ts fails).attempted.length = 3 ∧
    (cleanup_old_versions 5 ts fails).kept.length = 5 ∧
    (∀ a ∈ (cleanup_old_versions 5 ts fails).attempted,
      ∀ b ∈ (cleanup_old_versions 5 ts fails).kept, a < b) ∧
    ((cleanup_old_versions 5 ts fails).kept
      ++ (cleanup_old_versions 5 ts fails).attempted).Perm ts ∧
    (cleanup_old_versions 5 ts fails).deleted
      = (cleanup_old_versions 5 ts fails).attempted.filter (fun t => !(fails t)) ∧
    (cleanup_old_versions 5 ts fails).attempted
      = (cleanup_old_versions 5 ts (fun _ => false)).attempted ∧
    (cleanup_old_versions 5 ts fails).kept
      = (cleanup_old_versions 5 ts (fun _ => false)).kept := by
  intro ts fails hlen hnd
  have hperm : (List.insertionSort (fun a b : ℤ => a ≤ b) ts).Perm ts :=
    List.perm_insertionSort _ ts
  have hsorted :
      List.Pairwise (fun a b : ℤ => a ≤ b)
        (List.insertionSort (fun a b : ℤ => a ≤ b) ts) :=
    List.sorted_insertionSort _ ts
  have hrevpw :
      List.Pairwise (fun a b : ℤ => b ≤ a)
        (List.insertionSort (fun a b : ℤ => a ≤ b) ts).reverse :=
    List.pairwise_reverse.mpr hsorted
  have hlen2 : (List.insertionSort (fun a b : ℤ => a ≤ b) ts).reverse.length = 8 := by
    rw [List.length_reverse, hperm.length_eq, hlen]
  have hndrev : (List.insertionSort (fun a b : ℤ => a ≤ b) ts).reverse.Nodup :=
    List.nodup_reverse.mpr (hperm.symm.nodup hnd)
  have hkept : (cleanup_old_versions 5 ts fails).kept
      = (List.insertionSort (fun a b : ℤ => a ≤ b) ts).reverse.take 5 := rfl
  have hatt : (cleanup_old_versions 5 ts fails).attempted
      = (List.insertionSort (fun a b : ℤ => a ≤ b) ts).reverse.drop 5 := rfl
  have hsplit := List.pairwise_append.mp
    (show List.Pairwise (fun a b : ℤ => b ≤ a)
      ((List.insertionSort (fun a b : ℤ => a ≤ b) ts).reverse.take 5
        ++ (List.insertionSort (fun a b : ℤ => a ≤ b) ts).reverse.drop 5) by
      rw [List.take_append_drop]
      exact hrevpw)
  have hdisj := List.disjoint_of_nodup_append
    (show ((List.insertionSort (fun a b : ℤ => a ≤ b) ts).reverse.take 5
        ++ (List.insertionSort (fun a b : ℤ => a ≤ b) ts).reverse.drop 5).Nodup by
      rw [List.take_append_drop]
      exact hndrev)
  refine ⟨?_, ?_, ?_, ?_, rfl, rfl, rfl⟩
  · rw [hatt, List.length_drop, hlen2]
  · rw [hkept, List.length_take, hlen2]
    rfl
  · intro a ha b hb
    rw [hatt] at ha
    rw [hkept] at hb
    have hle : a ≤ b := hsplit.2.2 b hb a ha
    have hne : a ≠ b := by
      intro he
      exact hdisj hb (he ▸ ha)
    exact lt_of_le_of_ne hle hne
  · rw [hkept, hatt, List.take_append_drop]
    exact (List.reverse_perm _).trans hperm

/-- Claim C9, witness: a concrete 8-timestamp run where deleting timestamp 2
fails. -/
theorem claim_C9_witness :
    (cleanup_old_versions 5 [3, 1, 8, 5, 2, 7, 6, 4]
      (fun t => t == 2)).attempted.length = 3 ∧
    (cleanup_old_versions 5 [3, 1, 8, 5, 2, 7, 6, 4]
      (fun t => t == 2)).kept.length = 5 ∧
    (cleanup_old_versions 5 [3, 1, 8, 5, 2, 7, 6, 4] (fun t => t == 2)).deleted
      = (cleanup_old_versions 5 [3, 1, 8, 5, 2, 7, 6, 4]
          (fun t => t == 2)).attempted.filter (fun t => !(t == 2)) :=
  ⟨(claim_C9 [3, 1, 8, 5, 2, 7, 6, 4] (fun t => t == 2) (by decide) (by decide)).1,
   (claim_C9 [3, 1, 8, 5, 2, 7, 6, 4] (fun t => t == 2) (by decide) (by decide)).2.1,
   (claim_C9 [3, 1, 8, 5, 2, 7, 6, 4] (fun t => t == 2) (by decide)
     (by decide)).2.2.2.2.1⟩

theorem sumGmv_cons (r : OrderRecord) (x : List OrderRecord) :
    sumGmv (r :: x) = (gmvNum (coerceGmv r.order_gmv)).getD 0 + sumGmv x := by
  unfold sumGmv
  cases h : gmvNum (coerceGmv r.order_gmv) with
  | none => simp [List.filterMap_cons, h]
  | some v => simp [List.filterMap_cons, h]

theorem sumGmv_filter_add (q : OrderRecord → Bool) (l : List OrderRecord) :
    sumGmv (l.filter q) + sumGmv (l.filter (fun r => !(q r))) = sumGmv l := by
  induction l with
  | nil => simp [sumGmv]
  | cons r rs ih =>
    cases hq : q r with
    | true =>
      simp only [List.filter_cons, hq, Bool.not_true, if_pos, sumGmv_cons,
        if_true, if_false, Bool.false_eq_true, ite_false, ite_true]
      linarith [ih]
    | false =>
      simp only [List.filter_cons, hq, Bool.not_false, sumGmv_cons,
        if_true, if_false, Bool.false_eq_true, ite_false, ite_true]
      linarith [ih]

theorem length_filter_add (q : OrderRecord → Bool) (l : List OrderRecord) :
    (l.filter q).length + (l.filter (fun r => !(q r))).length = l.length := by
  induction l with
  | nil => rfl
  | cons r rs ih =>
    cases hq : q r with
    | true =>
      simp only [List.filter_cons, hq, Bool.not_true, if_true, if_false,
        Bool.false_eq_true, ite_false, ite_true, List.length_cons]
      omega
    | false =>
      simp only [List.filter_cons, hq, Bool.not_false, if_true, if_false,
        Bool.false_eq_true, ite_false, ite_true, List.length_cons]
      omega

theorem round1_pair_bound (p q : ℚ) (h : p + q = 100) :
    |round1 p + round1 q - 100| ≤ 1/5 := by
  have h1 := abs_le.mp (abs_round1_sub_le p)
  have h2 := abs_le.mp (abs_round1_sub_le q)
  have he : round1 p + round1 q - 100 = (round1 p - p) + (round1 q - q) := by
    rw [← h]
    ring
  rw [he, abs_le]
  exact ⟨by linarith [h1.1, h2.1], by linarith [h1.2, h2.2]⟩

theorem round2_add_bound (a b : ℚ) :
    |round2 a + round2 b - round2 (a + b)| ≤ 3/200 := by
  have h1 := abs_le.mp (abs_round2_sub_le a)
  have h2 := abs_le.mp (abs_round2_sub_le b)
  have h3 := abs_le.mp (abs_round2_sub_le (a + b))
  have he : round2 a + round2 b - round2 (a + b)
      = (round2 a - a) + (round2 b - b) - (round2 (a + b) - (a + b)) := by
    ring
  rw [he, abs_le]
  exact ⟨by linarith [h1.1, h2.1, h3.2], by linarith [h1.2, h2.2, h3.1]⟩

theorem nunique_eq_length (l : List String) (h : l.Nodup) :
    nunique l = l.length := by
  unfold nunique
  rw [List.dedup_eq_self.mpr h]

theorem nunique_map_filter (l : List OrderRecord) (q : OrderRecord → Bool)
    (h : (l.map (fun r => r.order_number)).Nodup) :
    nunique ((l.filter q).map (fun r => r.order_number))
      = (l.filter q).length := by
  have hsub : List.Sublist ((l.filter q).map (fun r => r.order_number))
      (l.map (fun r => r.order_number)) :=
    (List.filter_sublist l).map _
  rw [nunique_eq_length _ (hsub.nodup h), List.length_map]

/-- Claim C8, counterexample: a record set with positive combined total in
which one buyer orders through both channel groups; each group then counts
that buyer, so the two `buyers_percent` values sum to 200, far outside
100 ± 0.2. -/
theorem claim_C8_counterexample :
    0 < sumGmv [chRow1, chRow2] / currencyRate none ∧
    (calculate_channel_metrics [chRow1, chRow2] none).customer.buyers_percent
      + (calculate_channel_metrics [chRow1, chRow2] none).cx_tlp.buyers_percent
      = 200 ∧
    ¬ (|(calculate_channel_metrics [chRow1, chRow2] none).customer.buyers_percent
        + (calculate_channel_metrics [chRow1, chRow2] none).cx_tlp.buyers_percent
        - 100| ≤ 1/5) := by
  refine ⟨by with_unfolding_all decide, by with_unfolding_all decide, ?_⟩
  rw [show (calculate_channel_metrics [chRow1, chRow2] none).customer.buyers_percent
      + (calculate_channel_metrics [chRow1, chRow2] none).cx_tlp.buyers_percent
      = 200 from by with_unfolding_all decide]
  norm_num

/-- Claim C8, amended: for every nonempty record set with distinct order ids
and positive combined USD total, the two groups' `gmv_percent`s sum to 100
within 0.2, the two `orders_percent`s sum to 100 within 0.2, the group order
counts sum exactly to the unpartitioned order count, and the group GMVs sum
to the unpartitioned `total_gmv_usd` within the 2-decimal rounding tolerance
0.015; `buyers_percent` is excluded, since one buyer may belong to both
groups. -/
theorem claim_C8_amended : ∀ (l : List OrderRecord) (c : Option String),
    l ≠ [] →
    (l.map (fun r => r.order_number)).Nodup →
    0 < sumGmv l / currencyRate c →
    |(calculate_channel_metrics l c).customer.gmv_percent
      + (calculate_channel_metrics l c).cx_tlp.gmv_percent - 100| ≤ 1/5 ∧
    |(calculate_channel_metrics l c).customer.orders_percent
      + (calculate_channel_metrics l c).cx_tlp.orders_percent - 100| ≤ 1/5 ∧
    (calculate_channel_metrics l c).customer.orders
      + (calculate_channel_metrics l c).cx_tlp.orders
      = (calculate_metrics l c).orders ∧
    |(calculate_channel_metrics l c).customer.gmv_usd
      + (calculate_channel_metrics l c).cx_tlp.gmv_usd
      - (calculate_metrics l c).total_gmv_usd| ≤ 3/200 := by
  intro l c hne hnd ht
  cases l with
  | nil => exact absurd rfl hne
  | cons a as =>
    have hfq : ((a :: as).filter (fun r => r.channel ≠ "CX_TLP"))
        = (a :: as).filter (fun r => !(decide (r.channel = "CX_TLP"))) := by
      congr 1
      funext r
      simp [decide_not]
    have hGadd : sumGmv ((a :: as).filter (fun r => r.channel ≠ "CX_TLP"))
        + sumGmv ((a :: as).filter (fun r => r.channel = "CX_TLP"))
        = sumGmv (a :: as) := by
      rw [hfq]
      have h := sumGmv_filter_add (fun r => decide (r.channel = "CX_TLP")) (a :: as)
      linarith [h]
    have hE2 : sumGmv ((a :: as).filter (fun r => r.channel ≠ "CX_TLP"))
          / currencyRate c
        + sumGmv ((a :: as).filter (fun r => r.channel = "CX_TLP"))
          / currencyRate c
        = sumGmv (a :: as) / currencyRate c := by
      rw [div_add_div_same, hGadd]
    have hneT : sumGmv (a :: as) / currencyRate c ≠ 0 := ne_of_gt ht
    have hco : nunique (((a :: as).filter
          (fun r => r.channel ≠ "CX_TLP")).map (fun r => r.order_number))
        = ((a :: as).filter (fun r => r.channel ≠ "CX_TLP")).length :=
      nunique_map_filter (a :: as) _ hnd
    have hxo : nunique (((a :: as).filter
          (fun r => r.channel = "CX_TLP")).map (fun r => r.order_number))
        = ((a :: as).filter (fun r => r.channel = "CX_TLP")).length :=
      nunique_map_filter (a :: as) _ hnd
    have hto : nunique ((a :: as).map (fun r => r.order_number))
        = (a :: as).length := by
      rw [nunique_eq_length _ hnd, List.length_map]
    have hlen : ((a :: as).filter (fun r => r.channel ≠ "CX_TLP")).length
        + ((a :: as).filter (fun r => r.channel = "CX_TLP")).length
        = (a :: as).length := by
      rw [hfq]
      have h := length_filter_add (fun r => decide (r.channel = "CX_TLP")) (a :: as)
      omega
    have hord : nunique (((a :: as).filter
          (fun r => r.channel ≠ "CX_TLP")).map (fun r => r.order_number))
        + nunique (((a :: as).filter
          (fun r => r.channel = "CX_TLP")).map (fun r => r.order_number))
        = nunique ((a :: as).map (fun r => r.order_number)) := by
      rw [hco, hxo, hto]
      exact hlen
    have hto_pos : 0 < nunique ((a :: as).map (fun r => r.order_number)) := by
      rw [hto]
      exact Nat.succ_pos _
    have hneto : ((nunique ((a :: as).map (fun r => r.order_number))) : ℚ) ≠ 0 :=
      Nat.cast_ne_zero.mpr (Nat.pos_iff_ne_zero.mp hto_pos)
    have hsum_gmv : sumGmv ((a :: as).filter (fun r => r.channel ≠ "CX_TLP"))
          / currencyRate c / (sumGmv (a :: as) / currencyRate c) * 100
        + sumGmv ((a :: as).filter (fun r => r.channel = "CX_TLP"))
          / currencyRate c / (sumGmv (a :: as) / currencyRate c) * 100
        = 100 := by
      have e1 : sumGmv ((a :: as).filter (fun r => r.channel ≠ "CX_TLP"))
            / currencyRate c / (sumGmv (a :: as) / currencyRate c) * 100
          + sumGmv ((a :: as).filter (fun r => r.channel = "CX_TLP"))
            / currencyRate c / (sumGmv (a :: as) / currencyRate c) * 100
          = (sumGmv ((a :: as).filter (fun r => r.channel ≠ "CX_TLP"))
              / currencyRate c
            + sumGmv ((a :: as).filter (fun r => r.channel = "CX_TLP"))
              / currencyRate c) / (sumGmv (a :: as) / currencyRate c) * 100 := by
        ring
      rw [e1, hE2, div_self hneT, one_mul]
    have hsum_ord : ((nunique (((a :: as).filter
            (fun r => r.channel ≠ "CX_TLP")).map (fun r => r.order_number))) : ℚ)
          / ((nunique ((a :: as).map (fun r => r.order_number))) : ℚ) * 100
        + ((nunique (((a :: as).filter
            (fun r => r.channel = "CX_TLP")).map (fun r => r.order_number))) : ℚ)
          / ((nunique ((a :: as).map (fun r => r.order_number))) : ℚ) * 100
        = 100 := by
      have e1 : ((nunique (((a :: as).filter
              (fun r => r.channel ≠ "CX_TLP")).map (fun r => r.order_number))) : ℚ)
            / ((nunique ((a :: as).map (fun r => r.order_number))) : ℚ) * 100
          + ((nunique (((a :: as).filter
              (fun r => r.channel = "CX_TLP")).map (fun r => r.order_number))) : ℚ)
            / ((nunique ((a :: as).map (fun r => r.order_number))) : ℚ) * 100
          = (((nunique (((a :: as).filter
              (fun r => r.channel ≠ "CX_TLP")).map (fun r => r.order_number))) : ℚ)
            + ((nunique (((a :: as).filter
              (fun r => r.channel = "CX_TLP")).map (fun r => r.order_number))) : ℚ))
            / ((nunique ((a :: as).map (fun r => r.order_number))) : ℚ) * 100 := by
        ring
      have e2 : ((nunique (((a :: as).filter
              (fun r => r.channel ≠ "CX_TLP")).map (fun r => r.order_number))) : ℚ)
          + ((nunique (((a :: as).filter
              (fun r => r.channel = "CX_TLP")).map (fun r => r.order_number))) : ℚ)
          = ((nunique ((a :: as).map (fun r => r.order_number))) : ℚ) := by
        exact_mod_cast congrArg (Nat.cast : ℕ → ℚ) hord
      rw [e1, e2, div_self hneto, one_mul]
    refine ⟨?_, ?_, ?_, ?_⟩
    · show |round1 (if 0 < sumGmv (a :: as) / currencyRate c
          then sumGmv ((a :: as).filter (fun r => r.channel ≠ "CX_TLP"))
            / currencyRate c / (sumGmv (a :: as) / currencyRate c) * 100
          else 0)
        + round1 (if 0 < sumGmv (a :: as) / currencyRate c
          then sumGmv ((a :: as).filter (fun r => r.channel = "CX_TLP"))
            / currencyRate c / (sumGmv (a :: as) / currencyRate c) * 100
          else 0) - 100| ≤ 1/5
      rw [if_pos ht, if_pos ht]
      exact round1_pair_bound _ _ hsum_gmv
    · show |round1 (if 0 < nunique ((a :: as).map (fun r => r.order_number))
          then ((nunique (((a :: as).filter
              (fun r => r.channel ≠ "CX_TLP")).map (fun r => r.order_number))) : ℚ)
            / ((nunique ((a :: as).map (fun r => r.order_number))) : ℚ) * 100
          else 0)
        + round1 (if 0 < nunique ((a :: as).map (fun r => r.order_number))
          then ((nunique (((a :: as).filter
              (fun r => r.channel = "CX_TLP")).map (fun r => r.order_number))) : ℚ)
            / ((nunique ((a :: as).map (fun r => r.order_number))) : ℚ) * 100
          else 0) - 100| ≤ 1/5
      rw [if_pos hto_pos, if_pos hto_pos]
      exact round1_pair_bound _ _ hsum_ord
    · exact hord
    · show |round2 (sumGmv ((a :: as).filter (fun r => r.channel ≠ "CX_TLP"))
            / currencyRate c)
        + round2 (sumGmv ((a :: as).filter (fun r => r.channel = "CX_TLP"))
            / currencyRate c)
        - round2 (sumGmv (a :: as) / currencyRate c)| ≤ 3/200
      have h := round2_add_bound
        (sumGmv ((a :: as).filter (fun r => r.channel ≠ "CX_TLP")) / currencyRate c)
        (sumGmv ((a :: as).filter (fun r => r.channel = "CX_TLP")) / currencyRate c)
      rw [hE2] at h
      exact h

/-- Claim C8, amended, witness: the two-order, two-channel record set with
positive totals. -/
theorem claim_C8_amended_witness :
    |(calculate_channel_metrics [chRow1, chRow2] none).customer.gmv_percent
      + (calculate_channel_metrics [chRow1, chRow2] none).cx_tlp.gmv_percent
      - 100| ≤ 1/5 ∧
    (calculate_channel_metrics [chRow1, chRow2] none).customer.orders
      + (calculate_channel_metrics [chRow1, chRow2] none).cx_tlp.orders
      = (calculate_metrics [chRow1, chRow2] none).orders :=
  ⟨(claim_C8_amended [chRow1, chRow2] none (by decide) (by decide)
      (by with_unfolding_all decide)).1,
   (claim_C8_amended [chRow1, chRow2] none (by decide) (by decide)
      (by with_unfolding_all decide)).2.2.1⟩

theorem roundMetricSet_zero : roundMetricSet zeroMetricSet = zeroMetricSet := by
  simp [roundMetricSet, zeroMetricSet, round2_zero]

theorem calculate_metrics_eq_round_unrounded :
    ∀ (l : List OrderRecord) (c : Option String),
    calculate_metrics l c = roundMetricSet (calculate_metrics_unrounded l c) := by
  intro l c
  cases l with
  | nil => exact roundMetricSet_zero.symm
  | cons a as => rfl

theorem calculate_daily_metrics_eq_round_unrounded :
    ∀ (l : List OrderRecord) (c : Option String),
    calculate_daily_metrics l c
      = (calculate_daily_metrics_unrounded l c).map
          (fun p => (p.1, roundMetricSet p.2)) := by
  intro l c
  unfold calculate_daily_metrics calculate_daily_metrics_unrounded
  by_cases hl : l.isEmpty
  · rw [if_pos hl, if_pos hl]
    rfl
  · rw [if_neg hl, if_neg hl, List.map_map]
    apply List.map_congr_left
    intro d _
    show (d, calculate_metrics (l.filter (fun r => utcDay r = d)) c) = _
    rw [calculate_metrics_eq_round_unrounded]
    rfl

/-- Claim C4, counterexample: on the four-order input whose first day has
AOV 10/3 and whose second day has AOV 0, the 2-day moving average of AOV as
computed by the code (from per-day values already rounded to 3.33) is 1.66,
while the same average computed from unrounded per-day values and rounded
once at output is 1.67 — so a rounded value is used as input to further
arithmetic. -/
theorem claim_C4_counterexample :
    ¬ ((calculate_moving_average
        (calculate_daily_metrics [trendD1a, trendD1b, trendD1c, trendD2] none)
        2).aov
      = (calculate_moving_average
        (calculate_daily_metrics_unrounded
          [trendD1a, trendD1b, trendD1c, trendD2] none) 2).aov) := by
  with_unfolding_all decide

/-- Claim C4, amended: 2-decimal rounding is applied at each per-day
MetricSet's construction (every daily point is the rounded image of the
unrounded per-day values) and then again at moving-average construction,
which consumes those already-rounded per-day values — rounding is not
deferred to a single final output step. -/
theorem claim_C4_amended : ∀ (l : List OrderRecord) (c : Option String) (w : ℕ),
    calculate_metrics l c = roundMetricSet (calculate_metrics_unrounded l c) ∧
    calculate_daily_metrics l c
      = (calculate_daily_metrics_unrounded l c).map
          (fun p => (p.1, roundMetricSet p.2)) ∧
    calculate_moving_average (calculate_daily_metrics l c) w
      = calculate_moving_average
          ((calculate_daily_metrics_unrounded l c).map
            (fun p => (p.1, roundMetricSet p.2))) w := by
  intro l c w
  refine ⟨calculate_metrics_eq_round_unrounded l c,
    calculate_daily_metrics_eq_round_unrounded l c, ?_⟩
  rw [calculate_daily_metrics_eq_round_unrounded]
